import Mathlib

/-!
Verification of the DG Euler solver kernel (src/euler2d_dg/mod.c).

The C code is shallowly embedded over exact real arithmetic (`ℝ`):
`real` (= `double`) becomes `ℝ`, fixed `real[4]` state vectors become
`Fin 4 → ℝ`, and `sqrt`/`copysign` become `Real.sqrt` and an explicit
sign function.  For the advance and wavespeed passes a weights Patch is
modelled as the cell-indexed map `(i, j) ↦ payload`
(`GET(p, i, j)[k]` corresponds to `w i j k`): every element those two
kernels read or write lies at an offset `k < 4*n_poly` inside the
addressed cell's payload, so this abstracts the flat-buffer address map
`addr = jumps[0]*(i - start[0]) + jumps[1]*(j - start[1]) + k`
faithfully there.  The slope limiter is NOT modelled that way: at order 1
(`n_poly = 1`, payload width 4) it reads and writes `wij[q*n_poly+1]` and
`wij[q*n_poly+2]` at flat offsets up to 5, past the cell payload and into
the next cell in memory, so the limit pass is embedded over the flat
buffer (`ℤ → ℝ`) with the C `Patch` address arithmetic itself.
The wavespeed patch has a single field and is modelled as `ℤ → ℤ → ℝ`.

Execution backends: the CPU branch is the sequential double loop over
interior cells `[0, ni) × [0, nj)` (`FOR_EACH` with one guard layer);
the OMP branch runs the same per-cell writes (modelled sequentially);
the GPU branch is empty in a CPU-only build (`#if defined(__NVCC__)`),
so it leaves the buffers untouched.
-/

namespace Euler2dDG

/-- `#define ADIABATIC_GAMMA (5.0 / 3.0)` -/
noncomputable def ADIABATIC_GAMMA : ℝ := 5 / 3

/-- `#define NCONS 4` -/
def NCONS : ℕ := 4

/-- `#define NUM_GUARD 1` -/
def NUM_GUARD : ℕ := 1

/-- `#define MAX_NUM_FIELDS 24` (the line above it, commented out, reads
`#define MAX_NUM_FIELDS 60 // this is NCONS * MAX_POLYNOMIALS`). -/
def MAX_NUM_FIELDS : ℕ := 24

/-- One tabulated quadrature node of `struct NodeData`: basis values `phi[l]`,
derivatives and the scalar weight.  The C arrays of length MAX_POLYNOMIALS
are modelled as functions on `ℕ`. -/
structure NodeData where
  phi : ℕ → ℝ
  dphi_dx : ℕ → ℝ
  dphi_dy : ℕ → ℝ
  weight : ℝ

/-- `struct Cell`: the order plus the tabulated interior and face nodes. -/
structure Cell where
  order : ℤ
  interior_nodes : ℕ → NodeData
  face_nodes_li : ℕ → NodeData
  face_nodes_ri : ℕ → NodeData
  face_nodes_lj : ℕ → NodeData
  face_nodes_rj : ℕ → NodeData

/-- `struct Mesh` (the fields the kernels read). -/
structure Mesh where
  ni : ℕ
  nj : ℕ
  dx : ℝ
  dy : ℝ

/-- A weights patch viewed as cell payloads: `w i j k` is `GET(p,i,j)[k]`. -/
abbrev Wbuf : Type := ℤ → ℤ → ℕ → ℝ

/-- `num_polynomials`: the switch on `cell.order`; any order outside
`{1,…,5}` falls to the `default: return 0` branch. -/
def num_polynomials (cell : Cell) : ℕ :=
  if cell.order = 1 then 1
  else if cell.order = 2 then 3
  else if cell.order = 3 then 6
  else if cell.order = 4 then 10
  else if cell.order = 5 then 15
  else 0

/-- `num_quadrature_points`: `cell.order * cell.order`. -/
def num_quadrature_points (cell : Cell) : ℤ := cell.order * cell.order

/-- `conserved_to_primitive`. -/
noncomputable def conserved_to_primitive (cons : Fin 4 → ℝ) : Fin 4 → ℝ :=
  let rho := cons 0
  let px := cons 1
  let py := cons 2
  let energy := cons 3
  let vx := px / rho
  let vy := py / rho
  let kinetic_energy := 0.5 * rho * (vx * vx + vy * vy)
  let thermal_energy := energy - kinetic_energy
  let pressure := thermal_energy * (ADIABATIC_GAMMA - 1)
  ![rho, vx, vy, pressure]

/-- `primitive_to_conserved`. -/
noncomputable def primitive_to_conserved (prim : Fin 4 → ℝ) : Fin 4 → ℝ :=
  let rho := prim 0
  let vx := prim 1
  let vy := prim 2
  let pressure := prim 3
  let px := vx * rho
  let py := vy * rho
  let kinetic_energy := 0.5 * rho * (vx * vx + vy * vy)
  let thermal_energy := pressure / (ADIABATIC_GAMMA - 1)
  ![rho, px, py, kinetic_energy + thermal_energy]

/-- `primitive_to_velocity_component`: switch on the direction,
`default: return 0.0`. -/
noncomputable def primitive_to_velocity_component (prim : Fin 4 → ℝ) (direction : ℕ) : ℝ :=
  if direction = 0 then prim 1
  else if direction = 1 then prim 2
  else 0

/-- `primitive_to_flux`; the C booleans `(direction == 0)` and
`(direction == 1)` promote to `1.0` or `0.0`. -/
noncomputable def primitive_to_flux (prim cons : Fin 4 → ℝ) (direction : ℕ) : Fin 4 → ℝ :=
  let vn := primitive_to_velocity_component prim direction
  let pressure := prim 3
  ![vn * cons 0,
    vn * cons 1 + pressure * (if direction = 0 then 1 else 0),
    vn * cons 2 + pressure * (if direction = 1 then 1 else 0),
    vn * cons 3 + pressure * vn]

/-- `primitive_to_sound_speed_squared`. -/
noncomputable def primitive_to_sound_speed_squared (prim : Fin 4 → ℝ) : ℝ :=
  ADIABATIC_GAMMA * prim 3 / prim 0

/-- `primitive_to_outer_wavespeeds`: `(vn - cs, vn + cs)`. -/
noncomputable def primitive_to_outer_wavespeeds (prim : Fin 4 → ℝ) (direction : ℕ) : ℝ × ℝ :=
  let cs := Real.sqrt (primitive_to_sound_speed_squared prim)
  let vn := primitive_to_velocity_component prim direction
  (vn - cs, vn + cs)

/-- `primitive_max_wavespeed`. -/
noncomputable def primitive_max_wavespeed (prim : Fin 4 → ℝ) : ℝ :=
  let cs := Real.sqrt (primitive_to_sound_speed_squared prim)
  let vx := prim 1
  let vy := prim 2
  let ax := max |vx - cs| |vx + cs|
  let ay := max |vy - cs| |vy + cs|
  max ax ay

/-- `riemann_hlle`. -/
noncomputable def riemann_hlle (pl pr : Fin 4 → ℝ) (direction : ℕ) : Fin 4 → ℝ :=
  let ul := primitive_to_conserved pl
  let ur := primitive_to_conserved pr
  let fl := primitive_to_flux pl ul direction
  let fr := primitive_to_flux pr ur direction
  let al := primitive_to_outer_wavespeeds pl direction
  let ar := primitive_to_outer_wavespeeds pr direction
  let am := min 0 (min al.1 ar.1)
  let ap := max 0 (max al.2 ar.2)
  fun q => (fl q * ap - fr q * am - (ul q - ur q) * ap * am) / (ap - am)

/-- `#define sign(x) copysign(1.0, x)`: `+1` for `x ≥ 0`, `-1` for `x < 0`
(`ℝ` has no negative zero, so `copysign(1.0, -0.0) = -1.0` has no image). -/
noncomputable def sign (x : ℝ) : ℝ := if x < 0 then -1 else 1

/-- `minmodTVB` with `BETA_TVB = 1.0`, `M = 10.0`;
`minabs(a,b,c)` is `min(|a|, min(|b|, |c|))`. -/
noncomputable def minmodTVB (w1 w0l w0 w0r dl : ℝ) : ℝ :=
  let BETA_TVB : ℝ := 1
  let a := w1 * Real.sqrt 3
  let b := (w0 - w0l) * BETA_TVB
  let c := (w0r - w0) * BETA_TVB
  let M : ℝ := 10
  if |a| ≤ M * dl * dl then w1
  else
    let x1 := |sign a + sign b| * (sign a + sign c)
    let x2 := min |a| (min |b| |c|)
    0.25 / Real.sqrt 3 * x1 * x2

/-- `minmodB` with `M = 1.0`. -/
noncomputable def minmodB (a b c dl : ℝ) : ℝ :=
  let M : ℝ := 1
  if |a| ≤ M * dl * dl then a
  else
    let x1 := |sign a + sign b| * (sign a + sign c)
    let x2 := min |a| (min |b| |c|)
    0.25 * x1 * x2

/-- The modal reconstruction loop `u[q] = Σ_{l < n_poly} w[q*n_poly+l] * nd.phi[l]`,
shared by the face-state and interior-state accumulations of
`advance_rk_zone_dg`. -/
noncomputable def face_value (w : ℕ → ℝ) (n_poly : ℕ) (nd : NodeData) : Fin 4 → ℝ :=
  fun q => ∑ l ∈ Finset.range n_poly, w ((q : ℕ) * n_poly + l) * nd.phi l

/-- `advance_rk_zone_dg`: one forward-Euler DG substep for cell `(i,j)`.
The scratch accumulator `dwij[q*n_poly+l]` is represented by the function
`dwij q l` (volume contributions added, surface contributions subtracted,
exactly as the C loops accumulate); the final loop writes
`wout[q*n_poly+l] = wij[q*n_poly+l] + 0.5*dwij[q*n_poly+l]*dt/dx` for
`q < 4`, `l < n_poly`, i.e. at every payload index `k < 4*n_poly`
(with `q = k / n_poly`, `l = k % n_poly`).  Only the write patch changes. -/
noncomputable def advance_rk_zone_dg (cell : Cell) (mesh : Mesh)
    (weights_rd weights_wr : Wbuf) (dt : ℝ) (i j : ℤ) : Wbuf :=
  let dx := mesh.dx
  let n_quad := (num_quadrature_points cell).toNat
  let n_poly := num_polynomials cell
  let n_face := cell.order.toNat
  let wij := weights_rd i j
  let wli := weights_rd (i - 1) j
  let wri := weights_rd (i + 1) j
  let wlj := weights_rd i (j - 1)
  let wrj := weights_rd i (j + 1)
  let surf : ℕ → Fin 4 → ℕ → ℝ := fun qp q l =>
    let ulim := face_value wli n_poly (cell.face_nodes_ri qp)
    let ulip := face_value wij n_poly (cell.face_nodes_li qp)
    let urim := face_value wij n_poly (cell.face_nodes_ri qp)
    let urip := face_value wri n_poly (cell.face_nodes_li qp)
    let uljm := face_value wlj n_poly (cell.face_nodes_rj qp)
    let uljp := face_value wij n_poly (cell.face_nodes_lj qp)
    let urjm := face_value wij n_poly (cell.face_nodes_rj qp)
    let urjp := face_value wrj n_poly (cell.face_nodes_lj qp)
    let fli := riemann_hlle (conserved_to_primitive ulim) (conserved_to_primitive ulip) 0
    let fri := riemann_hlle (conserved_to_primitive urim) (conserved_to_primitive urip) 0
    let flj := riemann_hlle (conserved_to_primitive uljm) (conserved_to_primitive uljp) 1
    let frj := riemann_hlle (conserved_to_primitive urjm) (conserved_to_primitive urjp) 1
    fli q * (cell.face_nodes_li qp).phi l * (cell.face_nodes_li qp).weight
      + fri q * (cell.face_nodes_ri qp).phi l * (cell.face_nodes_ri qp).weight
      + flj q * (cell.face_nodes_lj qp).phi l * (cell.face_nodes_lj qp).weight
      + frj q * (cell.face_nodes_rj qp).phi l * (cell.face_nodes_rj qp).weight
  let vol : ℕ → Fin 4 → ℕ → ℝ := fun qp q l =>
    let node := cell.interior_nodes qp
    let cons := face_value wij n_poly node
    let primitive := conserved_to_primitive cons
    let flux_x := primitive_to_flux primitive cons 0
    let flux_y := primitive_to_flux primitive cons 1
    flux_x q * node.dphi_dx l * node.weight + flux_y q * node.dphi_dy l * node.weight
  let dwij : Fin 4 → ℕ → ℝ := fun q l =>
    (∑ qp ∈ Finset.range n_quad, vol qp q l) - (∑ qp ∈ Finset.range n_face, surf qp q l)
  fun i2 j2 k =>
    if h : i2 = i ∧ j2 = j ∧ k < 4 * n_poly then
      wij k + 0.5 * dwij ⟨k / n_poly, Nat.div_lt_of_lt_mul (by omega)⟩ (k % n_poly) * dt / dx
    else weights_wr i2 j2 k

/-- The mode-0 conserved state of cell `(i,j)`: `cons[q] = wij[q*n_poly+0]`
as read by `wavespeed_zone`. -/
noncomputable def mean_cons (cell : Cell) (w : Wbuf) (i j : ℤ) : Fin 4 → ℝ :=
  fun q => w i j ((q : ℕ) * num_polynomials cell + 0)

/-- The left eigenmatrix `lx` of the x-flux Jacobian, built from the mean
state exactly as `limit_characteristic_slopes_zone` does (`prim`, `cs2`,
`cs`, `g1`, `k`, `phi`, `beta` as in the source). -/
noncomputable def char_lx (w0 : Fin 4 → ℝ) : Fin 4 → Fin 4 → ℝ :=
  let prim := conserved_to_primitive w0
  let cs2 := primitive_to_sound_speed_squared prim
  let cs := Real.sqrt cs2
  let g1 := ADIABATIC_GAMMA - 1
  let vx := prim 1
  let vy := prim 2
  let k := 0.5 * (vx * vx + vy * vy)
  let phi := g1 * k
  let beta := 1 / (2 * cs2)
  ![![beta * (phi + cs * vx), -(beta * (g1 * vx + cs)), -(beta * g1 * vy), beta * g1],
    ![1 - 2 * beta * phi, 2 * beta * g1 * vx, 2 * beta * g1 * vy, -(2 * beta * g1)],
    ![beta * (phi - cs * vx), -(beta * (g1 * vx - cs)), -(beta * g1 * vy), beta * g1],
    ![vy, 0, -1, 0]]

/-- The left eigenmatrix `ly` of the y-flux Jacobian. -/
noncomputable def char_ly (w0 : Fin 4 → ℝ) : Fin 4 → Fin 4 → ℝ :=
  let prim := conserved_to_primitive w0
  let cs2 := primitive_to_sound_speed_squared prim
  let cs := Real.sqrt cs2
  let g1 := ADIABATIC_GAMMA - 1
  let vx := prim 1
  let vy := prim 2
  let k := 0.5 * (vx * vx + vy * vy)
  let phi := g1 * k
  let beta := 1 / (2 * cs2)
  ![![beta * (phi + cs * vy), -(beta * g1 * vx), -(beta * (g1 * vy + cs)), beta * g1],
    ![1 - 2 * beta * phi, 2 * beta * g1 * vx, 2 * beta * g1 * vy, -(2 * beta * g1)],
    ![beta * (phi - cs * vy), -(beta * g1 * vx), -(beta * (g1 * vy - cs)), beta * g1],
    ![-vx, 1, 0, 0]]

/-- The right eigenmatrix `rx` of the x-flux Jacobian. -/
noncomputable def char_rx (w0 : Fin 4 → ℝ) : Fin 4 → Fin 4 → ℝ :=
  let prim := conserved_to_primitive w0
  let cs2 := primitive_to_sound_speed_squared prim
  let cs := Real.sqrt cs2
  let g1 := ADIABATIC_GAMMA - 1
  let vx := prim 1
  let vy := prim 2
  let k := 0.5 * (vx * vx + vy * vy)
  let h := cs2 / g1 + k
  ![![1, 1, 1, 0],
    ![vx - cs, vx, vx + cs, 0],
    ![vy, vy, vy, -1],
    ![h - cs * vx, k, h + cs * vx, -vy]]

/-- The right eigenmatrix `ry` of the y-flux Jacobian. -/
noncomputable def char_ry (w0 : Fin 4 → ℝ) : Fin 4 → Fin 4 → ℝ :=
  let prim := conserved_to_primitive w0
  let cs2 := primitive_to_sound_speed_squared prim
  let cs := Real.sqrt cs2
  let g1 := ADIABATIC_GAMMA - 1
  let vx := prim 1
  let vy := prim 2
  let k := 0.5 * (vx * vx + vy * vy)
  let h := cs2 / g1 + k
  ![![1, 1, 1, 0],
    ![vx, vx, vx, 1],
    ![vy - cs, vy, vy + cs, 0],
    ![h - cs * vy, k, h + cs * vy, vx]]

/-- `struct Patch`: start offsets, counts, linear strides, payload width
and the (flat, mutable) backing store, modelled as `ℤ → ℝ`. -/
structure Patch where
  start0 : ℤ
  start1 : ℤ
  count0 : ℤ
  count1 : ℤ
  jumps0 : ℤ
  jumps1 : ℤ
  num_fields : ℤ
  data : ℤ → ℝ

/-- The `patch` constructor: `start = -num_guard`,
`count = n + 2*num_guard`, `jumps[0] = num_fields * count[1]`,
`jumps[1] = num_fields`. -/
noncomputable def patch (mesh : Mesh) (num_fields num_guard : ℕ) (data : ℤ → ℝ) : Patch :=
  ⟨-(num_guard : ℤ), -(num_guard : ℤ),
    (mesh.ni : ℤ) + 2 * (num_guard : ℤ), (mesh.nj : ℤ) + 2 * (num_guard : ℤ),
    (num_fields : ℤ) * ((mesh.nj : ℤ) + 2 * (num_guard : ℤ)), (num_fields : ℤ),
    (num_fields : ℤ), data⟩

/-- `GET(p, i, j)`: the flat offset of cell `(i,j)`'s payload,
`jumps[0]*(i - start[0]) + jumps[1]*(j - start[1])`. -/
def addr (p : Patch) (i j : ℤ) : ℤ :=
  p.jumps0 * (i - p.start0) + p.jumps1 * (j - p.start1)

/-- The mode-0 conserved state of cell `(i,j)` read through the flat
buffer: `GET(p,i,j)[q*n_poly+0]`. -/
noncomputable def mean_cons_flat (cell : Cell) (p : Patch) (i j : ℤ) : Fin 4 → ℝ :=
  fun q => p.data (addr p i j + ((q : ℕ) * num_polynomials cell + 0 : ℕ))

/-- `limit_characteristic_slopes_zone`.  The routine limits the
characteristic slopes of cell `(i,j)` and, when limiting activates for a
field `q`, assigns `wij[q*n_poly+2] = w2t[q]`, `wij[q*n_poly+1] = w1t[q]`
and zeroes `wij[q*n_poly+l]` for `3 ≤ l < n_poly` IN THE READ BUFFER
(`wij` points into `weights_rd.data`); the final loop then copies
`wij[q*n_poly+l]` (`l < n_poly`, i.e. flat offsets `m < 4*n_poly`) from
the mutated read data to the write buffer.  All accesses go through the
flat `Patch` address map, so at `n_poly = 1` the reads and conditional
writes at `wij[q*n_poly+1]` and `wij[q*n_poly+2]` for `q ≥ 2` (flat
offsets 4 and 5, past the 4-wide payload) land in cell `(i, j+1)`,
exactly as the pointer arithmetic does in C.  The four in-place
`q`-iterations are the nested `write_q` applications (ascending `q`, so a
later `q` overwrites an earlier one at aliased addresses, matching the
sequential C loop; within one `q` the three target groups are disjoint).
Returns the pair (read data, write data) after the call. -/
noncomputable def limit_characteristic_slopes_zone (cell : Cell) (mesh : Mesh)
    (weights_rd weights_wr : Patch) (i j : ℤ) : (ℤ → ℝ) × (ℤ → ℝ) :=
  let n_poly := num_polynomials cell
  let dx := mesh.dx
  let dy := mesh.dy
  let BETA_TVB : ℝ := 1
  let SQRT_THREE := Real.sqrt 3
  let wijbase := addr weights_rd i j
  let wij : ℕ → ℝ := fun k => weights_rd.data (wijbase + k)
  let w0 : Fin 4 → ℝ := mean_cons_flat cell weights_rd i j
  let w0l : Fin 4 → ℝ := mean_cons_flat cell weights_rd (i - 1) j
  let w0r : Fin 4 → ℝ := mean_cons_flat cell weights_rd (i + 1) j
  let w0b : Fin 4 → ℝ := mean_cons_flat cell weights_rd i (j - 1)
  let w0t : Fin 4 → ℝ := mean_cons_flat cell weights_rd i (j + 1)
  let w1 : Fin 4 → ℝ := fun q => wij ((q : ℕ) * n_poly + 1)
  let w2 : Fin 4 → ℝ := fun q => wij ((q : ℕ) * n_poly + 2)
  let lx := char_lx w0
  let ly := char_ly w0
  let rx := char_rx w0
  let ry := char_ry w0
  let c2 : Fin 4 → ℝ := fun qi => ∑ qj : Fin 4, lx qi qj * w2 qj
  let cl : Fin 4 → ℝ := fun qi => ∑ qj : Fin 4, lx qi qj * (w0 qj - w0l qj)
  let cr : Fin 4 → ℝ := fun qi => ∑ qj : Fin 4, lx qi qj * (w0r qj - w0 qj)
  let c1 : Fin 4 → ℝ := fun qi => ∑ qj : Fin 4, ly qi qj * w1 qj
  let cb : Fin 4 → ℝ := fun qi => ∑ qj : Fin 4, ly qi qj * (w0 qj - w0b qj)
  let ct : Fin 4 → ℝ := fun qi => ∑ qj : Fin 4, ly qi qj * (w0t qj - w0 qj)
  let c1t : Fin 4 → ℝ := fun q =>
    minmodB (SQRT_THREE * c1 q) (BETA_TVB * cb q) (BETA_TVB * ct q) dy / SQRT_THREE
  let c2t : Fin 4 → ℝ := fun q =>
    minmodB (SQRT_THREE * c2 q) (BETA_TVB * cl q) (BETA_TVB * cr q) dx / SQRT_THREE
  let w1t : Fin 4 → ℝ := fun qi => ∑ qj : Fin 4, ry qi qj * c1t qj
  let w2t : Fin 4 → ℝ := fun qi => ∑ qj : Fin 4, rx qi qj * c2t qj
  let write_q : (ℤ → ℝ) → Fin 4 → (ℤ → ℝ) := fun dcur q =>
    if c2t q ≠ c2 q ∨ c1t q ≠ c1 q then
      fun a =>
        if wijbase + ((q : ℕ) * n_poly + 3 : ℕ) ≤ a ∧
            a < wijbase + ((q : ℕ) * n_poly + n_poly : ℕ) then 0
        else if a = wijbase + ((q : ℕ) * n_poly + 1 : ℕ) then w1t q
        else if a = wijbase + ((q : ℕ) * n_poly + 2 : ℕ) then w2t q
        else dcur a
    else dcur
  let data2 := write_q (write_q (write_q (write_q weights_rd.data 0) 1) 2) 3
  let wrbase := addr weights_wr i j
  let wrdata2 : ℤ → ℝ := fun a =>
    if wrbase ≤ a ∧ a < wrbase + (4 * n_poly : ℕ) then data2 (wijbase + (a - wrbase))
    else weights_wr.data a
  (data2, wrdata2)

/-- `wavespeed_zone`: reads the mode-0 (`l = 0`) weights of cell `(i,j)`,
derives the primitive state and writes `primitive_max_wavespeed` into the
one-field wavespeed patch at `(i,j)`. -/
noncomputable def wavespeed_zone (cell : Cell) (weights : Wbuf)
    (wavespeed : ℤ → ℤ → ℝ) (i j : ℤ) : ℤ → ℤ → ℝ :=
  let n_poly := num_polynomials cell
  let wij := weights i j
  let cons : Fin 4 → ℝ := fun q => wij ((q : ℕ) * n_poly + 0)
  let prim := conserved_to_primitive cons
  let a := primitive_max_wavespeed prim
  fun i2 j2 => if i2 = i ∧ j2 = j then a else wavespeed i2 j2

/-- One interior row `{(i, j) | j < nj}` of the `FOR_EACH` iteration space
(ascending `j`, the inner loop). -/
def rowCells : ℤ → ℕ → List (ℤ × ℤ)
  | _, 0 => []
  | i, nj + 1 => rowCells i nj ++ [(i, (nj : ℤ))]

/-- The `FOR_EACH(p, NUM_GUARD)` iteration space `[0, ni) × [0, nj)` in loop
order (`i` ascending outer, `j` ascending inner). -/
def cellIndices : ℕ → ℕ → List (ℤ × ℤ)
  | 0, _ => []
  | ni + 1, nj => cellIndices ni nj ++ rowCells (ni : ℤ) nj

/-- `enum ExecutionMode`. -/
inductive ExecutionMode
  | CPU
  | OMP
  | GPU

/-- `euler2d_dg_advance_rk`: dispatches `advance_rk_zone_dg` over the
interior cells.  The OMP branch performs the same per-cell writes (all to
distinct cells of the write patch) and is modelled by the same sequential
fold; in a CPU-only build the GPU branch is empty.  Returns
(read buffer, write buffer) after the pass. -/
noncomputable def euler2d_dg_advance_rk (cell : Cell) (mesh : Mesh)
    (weights_rd weights_wr : Wbuf) (dt : ℝ) (mode : ExecutionMode) : Wbuf × Wbuf :=
  match mode with
  | .CPU => (weights_rd, (cellIndices mesh.ni mesh.nj).foldl
      (fun w p => advance_rk_zone_dg cell mesh weights_rd w dt p.1 p.2) weights_wr)
  | .OMP => (weights_rd, (cellIndices mesh.ni mesh.nj).foldl
      (fun w p => advance_rk_zone_dg cell mesh weights_rd w dt p.1 p.2) weights_wr)
  | .GPU => (weights_rd, weights_wr)

/-- `euler2d_dg_limit_slopes`: builds the two patches with payload width
`n_poly * NCONS` and one guard layer over the raw data arrays, then
dispatches `limit_characteristic_slopes_zone` over the interior cells,
threading BOTH data arrays (the zone mutates the read buffer in place;
the patch geometry is constant across the pass, so rebuilding the patch
around the current data at each step is the C call with its updated
store).  Returns the pair (read data, write data). -/
noncomputable def euler2d_dg_limit_slopes (cell : Cell) (mesh : Mesh)
    (weights_rd_ptr weights_wr_ptr : ℤ → ℝ) (mode : ExecutionMode) :
    (ℤ → ℝ) × (ℤ → ℝ) :=
  let n_poly := num_polynomials cell
  match mode with
  | .CPU => (cellIndices mesh.ni mesh.nj).foldl
      (fun bufs p => limit_characteristic_slopes_zone cell mesh
        (patch mesh (n_poly * NCONS) NUM_GUARD bufs.1)
        (patch mesh (n_poly * NCONS) NUM_GUARD bufs.2) p.1 p.2)
      (weights_rd_ptr, weights_wr_ptr)
  | .OMP => (cellIndices mesh.ni mesh.nj).foldl
      (fun bufs p => limit_characteristic_slopes_zone cell mesh
        (patch mesh (n_poly * NCONS) NUM_GUARD bufs.1)
        (patch mesh (n_poly * NCONS) NUM_GUARD bufs.2) p.1 p.2)
      (weights_rd_ptr, weights_wr_ptr)
  | .GPU => (weights_rd_ptr, weights_wr_ptr)

/-- `euler2d_dg_wavespeed`: dispatches `wavespeed_zone` over the interior
cells.  Returns (weights buffer, wavespeed buffer) after the pass. -/
noncomputable def euler2d_dg_wavespeed (cell : Cell) (mesh : Mesh)
    (weights : Wbuf) (wavespeed : ℤ → ℤ → ℝ) (mode : ExecutionMode) :
    Wbuf × (ℤ → ℤ → ℝ) :=
  match mode with
  | .CPU => (weights, (cellIndices mesh.ni mesh.nj).foldl
      (fun s p => wavespeed_zone cell weights s p.1 p.2) wavespeed)
  | .OMP => (weights, (cellIndices mesh.ni mesh.nj).foldl
      (fun s p => wavespeed_zone cell weights s p.1 p.2) wavespeed)
  | .GPU => (weights, wavespeed)

/-- `euler2d_dg_maximum`: `a_max = 0.0`, then a max-fold over the data in
CPU mode; the OMP max-reduction computes the same value (the source is
compiled with OpenMP); the GPU case is not implemented and returns the
initial `0.0`. -/
noncomputable def euler2d_dg_maximum (data : List ℝ) (mode : ExecutionMode) : ℝ :=
  match mode with
  | .CPU => data.foldl (fun a_max x => max a_max x) 0
  | .OMP => data.foldl (fun a_max x => max a_max x) 0
  | .GPU => 0

/-- A node with all-zero tabulated data (the limiter never reads nodes). -/
noncomputable def trivialNode : NodeData :=
  ⟨fun _ => 0, fun _ => 0, fun _ => 0, 0⟩

/-- An order-1 node: the constant basis function `phi 0 = 1`, zero
derivatives, and quadrature weight `w` (faces carry pre-signed outward
weights). -/
noncomputable def constNode (w : ℝ) : NodeData :=
  ⟨fun l => if l = 0 then 1 else 0, fun _ => 0, fun _ => 0, w⟩

/-- A cell of the given order whose node tables are irrelevant. -/
noncomputable def cellOfOrder (p : ℤ) : Cell :=
  ⟨p, fun _ => trivialNode, fun _ => trivialNode, fun _ => trivialNode,
    fun _ => trivialNode, fun _ => trivialNode⟩

/-- An order-1 cell with the constant basis: interior weight `4`, and
face weights `-1` (left faces) and `1` (right faces), so that the
surface and volume quadratures are divergence-consistent. -/
noncomputable def cellP1 : Cell :=
  ⟨1, fun _ => constNode 4, fun _ => constNode (-1), fun _ => constNode 1,
    fun _ => constNode (-1), fun _ => constNode 1⟩

/-- A 1 × 1 mesh with unit spacing. -/
noncomputable def mesh1 : Mesh := ⟨1, 1, 1, 1⟩

/-- The constant primitive state (ρ, vx, vy, p) = (1, 0, 0, 3/5), whose
sound speed is exactly 1. -/
noncomputable def Pconst : Fin 4 → ℝ := ![1, 0, 0, 3 / 5]

/-- A weights buffer holding `primitive_to_conserved Pconst = (1,0,0,9/10)`
in mode 0 of every cell (order-1 payload). -/
noncomputable def rdConst : Wbuf :=
  fun _ _ k => if k = 0 then 1 else if k = 3 then 9 / 10 else 0

/-- An all-zero write buffer. -/
noncomputable def wrZero : Wbuf := fun _ _ _ => 0

/-- An all-ones write buffer (a sentinel for claims about zero-filling). -/
noncomputable def wrOnes : Wbuf := fun _ _ _ => 1

/-- An all-zero wavespeed buffer. -/
noncomputable def ws0 : ℤ → ℤ → ℝ := fun _ _ => 0

/-- An order-2 flat weights array (`n_poly = 3`, payload width 12) for the
1 × 1 mesh: the nine cells (guards included) occupy flat bases
`36*(i+1) + 12*(j+1) ∈ {0, 12, …, 96}`; every base-aligned entry
(`a % 12 = 0`, field 0 mean) holds 1 and every `a % 12 = 9` entry
(field 3 mean) holds 9/10, so all cells carry the uniform mean state
(1, 0, 0, 9/10).  The interior cell (0,0), at base 48, additionally
carries the y-slopes `w1 = (1, 0, -1, 3/2)` at offsets 49, 55, 58 (the
first right eigenvector of the y-flux Jacobian at that state), which the
characteristic limiter clips. -/
noncomputable def rdC2flat : ℤ → ℝ := fun a =>
  if a = 49 then 1
  else if a = 55 then -1
  else if a = 58 then 3 / 2
  else if a % 12 = 0 then 1
  else if a % 12 = 9 then 9 / 10
  else 0

/-- An all-zero flat write array. -/
noncomputable def wrZeroFlat : ℤ → ℝ := fun _ => 0

/-- An order-2 weights buffer: uniform means, every higher mode `37`. -/
noncomputable def wModes37 : Wbuf := fun _ _ k =>
  if k % 3 = 0 then (if k = 0 then 1 else if k = 9 then 9 / 10 else 0) else 37

/-- An order-2 weights buffer: uniform means, every higher mode `42`. -/
noncomputable def wModes42 : Wbuf := fun _ _ k =>
  if k % 3 = 0 then (if k = 0 then 1 else if k = 9 then 9 / 10 else 0) else 42

/-! ## Helper lemmas -/

theorem c2p_p2c (P : Fin 4 → ℝ) (h0 : P 0 ≠ 0) :
    conserved_to_primitive (primitive_to_conserved P) = P := by
  have e0 : conserved_to_primitive (primitive_to_conserved P) 0 = P 0 := by
    simp [conserved_to_primitive, primitive_to_conserved]
  have e1 : conserved_to_primitive (primitive_to_conserved P) 1 = P 1 := by
    simp [conserved_to_primitive, primitive_to_conserved]
    field_simp
  have e2 : conserved_to_primitive (primitive_to_conserved P) 2 = P 2 := by
    simp [conserved_to_primitive, primitive_to_conserved]
    field_simp
  have e3 : conserved_to_primitive (primitive_to_conserved P) 3 = P 3 := by
    simp [conserved_to_primitive, primitive_to_conserved, ADIABATIC_GAMMA]
    field_simp
    ring
  funext q
  fin_cases q
  · exact e0
  · exact e1
  · exact e2
  · exact e3

theorem p2c_c2p (U : Fin 4 → ℝ) (h0 : U 0 ≠ 0) :
    primitive_to_conserved (conserved_to_primitive U) = U := by
  have e0 : primitive_to_conserved (conserved_to_primitive U) 0 = U 0 := by
    simp [conserved_to_primitive, primitive_to_conserved]
  have e1 : primitive_to_conserved (conserved_to_primitive U) 1 = U 1 := by
    simp [conserved_to_primitive, primitive_to_conserved]
    field_simp
  have e2 : primitive_to_conserved (conserved_to_primitive U) 2 = U 2 := by
    simp [conserved_to_primitive, primitive_to_conserved]
    field_simp
  have e3 : primitive_to_conserved (conserved_to_primitive U) 3 = U 3 := by
    simp [conserved_to_primitive, primitive_to_conserved, ADIABATIC_GAMMA]
    field_simp
    ring
  funext q
  fin_cases q
  · exact e0
  · exact e1
  · exact e2
  · exact e3

theorem sound_speed_sq_pos (P : Fin 4 → ℝ) (h0 : 0 < P 0) (h3 : 0 < P 3) :
    0 < primitive_to_sound_speed_squared P := by
  unfold primitive_to_sound_speed_squared ADIABATIC_GAMMA
  positivity

theorem riemann_hlle_same (P : Fin 4 → ℝ) (h0 : 0 < P 0) (h3 : 0 < P 3) (dir : ℕ) :
    riemann_hlle P P dir = primitive_to_flux P (primitive_to_conserved P) dir := by
  have hcs : 0 < Real.sqrt (primitive_to_sound_speed_squared P) :=
    Real.sqrt_pos.mpr (sound_speed_sq_pos P h0 h3)
  funext q
  simp only [riemann_hlle, primitive_to_outer_wavespeeds, min_self, max_self]
  set vn := primitive_to_velocity_component P dir
  set cs := Real.sqrt (primitive_to_sound_speed_squared P)
  have ham : min 0 (vn - cs) ≤ vn - cs := min_le_right _ _
  have hap : vn + cs ≤ max 0 (vn + cs) := le_max_right _ _
  have hne : max 0 (vn + cs) - min 0 (vn - cs) ≠ 0 := by
    have : 0 < max 0 (vn + cs) - min 0 (vn - cs) := by linarith
    exact ne_of_gt this
  rw [div_eq_iff hne]
  ring

theorem advance_zone_frame (cell : Cell) (mesh : Mesh) (rd wr : Wbuf) (dt : ℝ)
    (i j i2 j2 : ℤ) (k : ℕ)
    (h : ¬ (i2 = i ∧ j2 = j ∧ k < 4 * num_polynomials cell)) :
    advance_rk_zone_dg cell mesh rd wr dt i j i2 j2 k = wr i2 j2 k := by
  simp only [advance_rk_zone_dg]
  rw [dif_neg h]

theorem advance_zone_wr_indep (cell : Cell) (mesh : Mesh) (rd : Wbuf) (dt : ℝ)
    (i j : ℤ) (k : ℕ) (w w' : Wbuf) (hk : k < 4 * num_polynomials cell) :
    advance_rk_zone_dg cell mesh rd w dt i j i j k =
      advance_rk_zone_dg cell mesh rd w' dt i j i j k := by
  have hcond : True ∧ True ∧ k < 4 * num_polynomials cell := ⟨trivial, trivial, hk⟩
  simp only [advance_rk_zone_dg]
  rw [dif_pos hcond, dif_pos hcond]

theorem advance_foldl_not_mem (cell : Cell) (mesh : Mesh) (rd : Wbuf) (dt : ℝ) :
    ∀ (L : List (ℤ × ℤ)) (w : Wbuf) (i j : ℤ) (k : ℕ), (i, j) ∉ L →
      (L.foldl (fun w p => advance_rk_zone_dg cell mesh rd w dt p.1 p.2) w) i j k
        = w i j k := by
  intro L
  induction L with
  | nil =>
    intro w i j k _
    rfl
  | cons p T ih =>
    intro w i j k hmem
    have hp : (i, j) ≠ p := fun h => hmem (h ▸ List.mem_cons_self p T)
    have hT : (i, j) ∉ T := fun h => hmem (List.mem_cons_of_mem p h)
    rw [List.foldl_cons, ih _ i j k hT]
    apply advance_zone_frame
    rintro ⟨h1, h2, -⟩
    exact hp (Prod.ext_iff.mpr ⟨h1, h2⟩)

theorem advance_foldl_mem (cell : Cell) (mesh : Mesh) (rd : Wbuf) (dt : ℝ) :
    ∀ (L : List (ℤ × ℤ)) (w : Wbuf) (i j : ℤ) (k : ℕ),
      (i, j) ∈ L → k < 4 * num_polynomials cell →
      (L.foldl (fun w p => advance_rk_zone_dg cell mesh rd w dt p.1 p.2) w) i j k
        = advance_rk_zone_dg cell mesh rd w dt i j i j k := by
  intro L
  induction L with
  | nil =>
    intro w i j k h _
    cases h
  | cons p T ih =>
    intro w i j k hmem hk
    rw [List.foldl_cons]
    by_cases hT : (i, j) ∈ T
    · rw [ih _ i j k hT hk]
      exact advance_zone_wr_indep cell mesh rd dt i j k _ _ hk
    · have hp : (i, j) = p := by
        rcases List.mem_cons.mp hmem with h | h
        · exact h
        · exact absurd h hT
      rw [advance_foldl_not_mem cell mesh rd dt T _ i j k hT]
      subst hp
      rfl

theorem advance_foldl_id (cell : Cell) (mesh : Mesh) (rd : Wbuf) (dt : ℝ)
    (hnp : num_polynomials cell = 0) :
    ∀ (L : List (ℤ × ℤ)) (w : Wbuf),
      L.foldl (fun w p => advance_rk_zone_dg cell mesh rd w dt p.1 p.2) w = w := by
  intro L
  induction L with
  | nil =>
    intro w
    rfl
  | cons p T ih =>
    intro w
    have hz : advance_rk_zone_dg cell mesh rd w dt p.1 p.2 = w := by
      funext i2 j2 k2
      apply advance_zone_frame
      rintro ⟨-, -, hk⟩
      rw [hnp] at hk
      omega
    rw [List.foldl_cons, hz, ih]

theorem ws_zone_frame (cell : Cell) (w : Wbuf) (ws : ℤ → ℤ → ℝ) (i j i2 j2 : ℤ)
    (h : ¬ (i2 = i ∧ j2 = j)) :
    wavespeed_zone cell w ws i j i2 j2 = ws i2 j2 := by
  simp only [wavespeed_zone]
  rw [if_neg h]

theorem ws_zone_own (cell : Cell) (w : Wbuf) (ws : ℤ → ℤ → ℝ) (i j : ℤ) :
    wavespeed_zone cell w ws i j i j =
      primitive_max_wavespeed (conserved_to_primitive (mean_cons cell w i j)) := by
  simp only [wavespeed_zone, mean_cons]
  rfl

theorem ws_foldl_not_mem (cell : Cell) (w : Wbuf) :
    ∀ (L : List (ℤ × ℤ)) (s : ℤ → ℤ → ℝ) (i j : ℤ), (i, j) ∉ L →
      (L.foldl (fun s p => wavespeed_zone cell w s p.1 p.2) s) i j = s i j := by
  intro L
  induction L with
  | nil =>
    intro s i j _
    rfl
  | cons p T ih =>
    intro s i j hmem
    have hp : (i, j) ≠ p := fun h => hmem (h ▸ List.mem_cons_self p T)
    have hT : (i, j) ∉ T := fun h => hmem (List.mem_cons_of_mem p h)
    rw [List.foldl_cons, ih _ i j hT]
    apply ws_zone_frame
    rintro ⟨h1, h2⟩
    exact hp (Prod.ext_iff.mpr ⟨h1, h2⟩)

theorem ws_foldl_mem (cell : Cell) (w : Wbuf) :
    ∀ (L : List (ℤ × ℤ)) (s : ℤ → ℤ → ℝ) (i j : ℤ), (i, j) ∈ L →
      (L.foldl (fun s p => wavespeed_zone cell w s p.1 p.2) s) i j
        = primitive_max_wavespeed (conserved_to_primitive (mean_cons cell w i j)) := by
  intro L
  induction L with
  | nil =>
    intro s i j h
    cases h
  | cons p T ih =>
    intro s i j hmem
    rw [List.foldl_cons]
    by_cases hT : (i, j) ∈ T
    · exact ih _ i j hT
    · have hp : (i, j) = p := by
        rcases List.mem_cons.mp hmem with h | h
        · exact h
        · exact absurd h hT
      rw [ws_foldl_not_mem cell w T _ i j hT]
      subst hp
      exact ws_zone_own cell w s i j

theorem mem_rowCells (r : ℤ) (nj : ℕ) (i j : ℤ) :
    (i, j) ∈ rowCells r nj ↔ i = r ∧ 0 ≤ j ∧ j < (nj : ℤ) := by
  induction nj with
  | zero =>
    simp only [rowCells]
    constructor
    · intro h
      cases h
    · rintro ⟨-, hj0, hj⟩
      omega
  | succ n ih =>
    simp only [rowCells, List.mem_append, ih, List.mem_singleton]
    constructor
    · rintro (⟨rfl, h1, h2⟩ | heq)
      · exact ⟨rfl, h1, by push_cast; omega⟩
      · injection heq with h1 h2
        subst h1
        subst h2
        exact ⟨rfl, by omega, by push_cast; omega⟩
    · rintro ⟨rfl, h1, h2⟩
      by_cases hj : j = (n : ℤ)
      · right
        rw [hj]
      · left
        exact ⟨rfl, h1, by push_cast at h2 ⊢; omega⟩

theorem mem_cellIndices (ni nj : ℕ) (i j : ℤ) :
    (i, j) ∈ cellIndices ni nj ↔ 0 ≤ i ∧ i < (ni : ℤ) ∧ 0 ≤ j ∧ j < (nj : ℤ) := by
  induction ni with
  | zero =>
    simp only [cellIndices, List.not_mem_nil, false_iff]
    omega
  | succ n ih =>
    simp only [cellIndices, List.mem_append, ih, mem_rowCells]
    push_cast
    omega

/-! ## Claim theorems -/

/-- C1: the spec sizes the per-cell scratch accumulators (`dwij` in
`advance_rk_zone_dg`, `wtilde` in `limit_conserved_slopes_zone`) at
NCONS · MAX_POLYNOMIALS = 60 reals, and the claim asserts every index
`q*n_poly + l` (q < 4, l < n_poly) stays below the declared scratch size
MAX_NUM_FIELDS for every order in {1,…,5}.  The code defines
MAX_NUM_FIELDS = 24 (its own adjacent comment says it should be
NCONS * MAX_POLYNOMIALS = 60), so at order 4 the index 3·10 + 9 = 39
already overflows the scratch buffer. -/
theorem scratch_buffer_overflow_order4 :
    num_polynomials (cellOfOrder 4) = 10 ∧
    MAX_NUM_FIELDS = 24 ∧
    3 * num_polynomials (cellOfOrder 4) + 9 = 39 ∧
    ¬ (3 * num_polynomials (cellOfOrder 4) + 9 < MAX_NUM_FIELDS) := by
  norm_num [num_polynomials, cellOfOrder, MAX_NUM_FIELDS]

/-- C5: for identical left and right primitive states with positive density
and pressure, the HLLE flux reduces to the exact flux
`primitive_to_flux(P, U(P), dir)` componentwise, in both directions. -/
theorem hlle_flux_consistency (P : Fin 4 → ℝ) (h0 : 0 < P 0) (h3 : 0 < P 3)
    (dir : ℕ) (hdir : dir = 0 ∨ dir = 1) :
    riemann_hlle P P dir = primitive_to_flux P (primitive_to_conserved P) dir :=
  riemann_hlle_same P h0 h3 dir

theorem hlle_flux_consistency_witness :
    0 < Pconst 0 ∧ 0 < Pconst 3 ∧ ((0 : ℕ) = 0 ∨ (0 : ℕ) = 1) ∧
    riemann_hlle Pconst Pconst 0 =
      primitive_to_flux Pconst (primitive_to_conserved Pconst) 0 := by
  have h0 : 0 < Pconst 0 := by norm_num [Pconst]
  have h3 : 0 < Pconst 3 := by norm_num [Pconst]
  exact ⟨h0, h3, Or.inl rfl, hlle_flux_consistency Pconst h0 h3 0 (Or.inl rfl)⟩

/-- C6: `conserved_to_primitive ∘ primitive_to_conserved` is the identity on
primitive states with positive density (and pressure), and symmetrically
`primitive_to_conserved ∘ conserved_to_primitive` is the identity on
conserved states with positive density, over exact real arithmetic. -/
theorem conserved_primitive_roundtrip :
    (∀ P : Fin 4 → ℝ, 0 < P 0 → 0 < P 3 →
      conserved_to_primitive (primitive_to_conserved P) = P) ∧
    (∀ U : Fin 4 → ℝ, 0 < U 0 →
      primitive_to_conserved (conserved_to_primitive U) = U) := by
  constructor
  · intro P hP0 _
    exact c2p_p2c P (ne_of_gt hP0)
  · intro U hU0
    exact p2c_c2p U (ne_of_gt hU0)

theorem conserved_primitive_roundtrip_witness :
    (0 < (![2, 1, -1, 5] : Fin 4 → ℝ) 0) ∧ (0 < (![2, 1, -1, 5] : Fin 4 → ℝ) 3) ∧
    conserved_to_primitive (primitive_to_conserved ![2, 1, -1, 5]) =
      (![2, 1, -1, 5] : Fin 4 → ℝ) := by
  have h0 : 0 < (![2, 1, -1, 5] : Fin 4 → ℝ) 0 := by norm_num
  have h3 : 0 < (![2, 1, -1, 5] : Fin 4 → ℝ) 3 := by norm_num
  exact ⟨h0, h3, conserved_primitive_roundtrip.1 _ h0 h3⟩

/-- C7: whenever `minmodTVB` is not in its pass-through branch
(`|w1·√3| > 10·Δℓ²`), it returns zero unless `a = w1·√3`, `b = w0 − w0l`,
`c = w0r − w0` all share the same (strict) sign, and when they do it returns
`(1/(4√3)) · |sgn a + sgn b| · (sgn a + sgn c) · min(|a|,|b|,|c|)`. -/
theorem minmodTVB_limited_spec (w1 w0l w0 w0r dl : ℝ)
    (hpass : 10 * dl * dl < |w1 * Real.sqrt 3|) :
    (¬ ((0 < w1 * Real.sqrt 3 ∧ 0 < w0 - w0l ∧ 0 < w0r - w0) ∨
        (w1 * Real.sqrt 3 < 0 ∧ w0 - w0l < 0 ∧ w0r - w0 < 0)) →
      minmodTVB w1 w0l w0 w0r dl = 0) ∧
    (((0 < w1 * Real.sqrt 3 ∧ 0 < w0 - w0l ∧ 0 < w0r - w0) ∨
        (w1 * Real.sqrt 3 < 0 ∧ w0 - w0l < 0 ∧ w0r - w0 < 0)) →
      minmodTVB w1 w0l w0 w0r dl =
        1 / (4 * Real.sqrt 3) * |sign (w1 * Real.sqrt 3) + sign (w0 - w0l)| *
          (sign (w1 * Real.sqrt 3) + sign (w0r - w0)) *
          min |w1 * Real.sqrt 3| (min |w0 - w0l| |w0r - w0|)) := by
  have hne : ¬ |w1 * Real.sqrt 3| ≤ 10 * dl * dl := not_le.mpr hpass
  have hval : minmodTVB w1 w0l w0 w0r dl =
      0.25 / Real.sqrt 3 *
        (|sign (w1 * Real.sqrt 3) + sign (w0 - w0l)| *
          (sign (w1 * Real.sqrt 3) + sign (w0r - w0))) *
        min |w1 * Real.sqrt 3| (min |w0 - w0l| |w0r - w0|) := by
    simp only [minmodTVB, mul_one, if_neg hne]
  set a := w1 * Real.sqrt 3 with hadef
  set b := w0 - w0l with hbdef
  set c := w0r - w0 with hcdef
  have ha : a ≠ 0 := by
    intro h
    rw [h, abs_zero] at hpass
    have hsq : (0 : ℝ) ≤ 10 * dl * dl := by nlinarith [sq_nonneg dl]
    linarith
  constructor
  · intro hns
    rcases ha.lt_or_lt with haneg | hapos
    · have hsa : sign a = -1 := by simp [sign, haneg]
      rcases lt_trichotomy b 0 with hb | hb | hb
      · rcases lt_trichotomy c 0 with hc | hc | hc
        · exact absurd (Or.inr ⟨haneg, hb, hc⟩) hns
        · have hsc : sign c = 1 := by simp [sign, hc]
          rw [hval, hsa, hsc]
          ring
        · have hsc : sign c = 1 := by simp [sign, not_lt.mpr hc.le]
          rw [hval, hsa, hsc]
          ring
      · have hsb : sign b = 1 := by simp [sign, hb]
        rw [hval, hsa, hsb]
        norm_num
      · have hsb : sign b = 1 := by simp [sign, not_lt.mpr hb.le]
        rw [hval, hsa, hsb]
        norm_num
    · have hsa : sign a = 1 := by simp [sign, not_lt.mpr hapos.le]
      rcases lt_trichotomy b 0 with hb | hb | hb
      · have hsb : sign b = -1 := by simp [sign, hb]
        rw [hval, hsa, hsb]
        norm_num
      · rw [hval, hb, abs_zero]
        rw [min_eq_left (abs_nonneg c), min_eq_right (abs_nonneg a)]
        ring
      · rcases lt_trichotomy c 0 with hc | hc | hc
        · have hsc : sign c = -1 := by simp [sign, hc]
          rw [hval, hsa, hsc]
          ring
        · rw [hval, hc, abs_zero]
          rw [min_eq_right (abs_nonneg b), min_eq_right (abs_nonneg a)]
          ring
        · exact absurd (Or.inl ⟨hapos, hb, hc⟩) hns
  · intro _
    rw [hval, show (0.25 : ℝ) = 1 / 4 by norm_num, div_div]
    ring

theorem minmodTVB_limited_spec_witness :
    10 * (0 : ℝ) * 0 < |(1 : ℝ) * Real.sqrt 3| ∧
    ((0 < (1 : ℝ) * Real.sqrt 3 ∧ 0 < (1 : ℝ) - 0 ∧ 0 < (2 : ℝ) - 1) →
      minmodTVB 1 0 1 2 0 =
        1 / (4 * Real.sqrt 3) * |sign ((1 : ℝ) * Real.sqrt 3) + sign ((1 : ℝ) - 0)| *
          (sign ((1 : ℝ) * Real.sqrt 3) + sign ((2 : ℝ) - 1)) *
          min |(1 : ℝ) * Real.sqrt 3| (min |(1 : ℝ) - 0| |(2 : ℝ) - 1|)) := by
  have h3 : (0 : ℝ) < Real.sqrt 3 := Real.sqrt_pos.mpr (by norm_num)
  have hpass : 10 * (0 : ℝ) * 0 < |(1 : ℝ) * Real.sqrt 3| := by
    rw [one_mul, abs_of_pos h3]
    simp
  exact ⟨hpass, fun hs => (minmodTVB_limited_spec 1 0 1 2 0 hpass).2 (Or.inl hs)⟩

/-- C9 helper: a max-fold starting from `a` yields `a` or a list element. -/
theorem foldl_max_eq_or_mem (l : List ℝ) :
    ∀ a : ℝ, l.foldl max a = a ∨ l.foldl max a ∈ l := by
  induction l with
  | nil =>
    intro a
    left
    rfl
  | cons x t ih =>
    intro a
    rcases ih (max a x) with h | h
    · rcases max_choice a x with hm | hm
      · left
        rw [List.foldl_cons, h, hm]
      · right
        rw [List.foldl_cons, h, hm]
        exact List.mem_cons_self x t
    · right
      rw [List.foldl_cons]
      exact List.mem_cons_of_mem x h

/-- C9 helper: a max-fold bounds its seed and every list element. -/
theorem le_foldl_max (l : List ℝ) :
    ∀ a : ℝ, a ≤ l.foldl max a ∧ ∀ x ∈ l, x ≤ l.foldl max a := by
  induction l with
  | nil =>
    intro a
    refine ⟨le_refl a, ?_⟩
    intro x hx
    cases hx
  | cons y t ih =>
    intro a
    obtain ⟨h1, h2⟩ := ih (max a y)
    refine ⟨le_trans (le_max_left a y) h1, ?_⟩
    intro x hx
    rcases List.mem_cons.mp hx with hxy | hx
    · rw [hxy]
      exact le_trans (le_max_right a y) h1
    · exact h2 x hx

/-- C9: `euler2d_dg_maximum` in CPU mode returns the maximum of `0.0` and
the array elements (so `0.0` for an empty array, and `0.0` instead of the
array maximum when every element is negative); OMP mode computes the same
reduction, and GPU mode always returns `0.0`. -/
theorem maximum_spec (data : List ℝ) :
    (euler2d_dg_maximum data .CPU ∈ (0 : ℝ) :: data) ∧
    (∀ x ∈ (0 : ℝ) :: data, x ≤ euler2d_dg_maximum data .CPU) ∧
    (data = [] → euler2d_dg_maximum data .CPU = 0) ∧
    ((∀ x ∈ data, x < 0) → euler2d_dg_maximum data .CPU = 0) ∧
    euler2d_dg_maximum data .OMP = euler2d_dg_maximum data .CPU ∧
    euler2d_dg_maximum data .GPU = 0 := by
  have hfold : euler2d_dg_maximum data .CPU = data.foldl max 0 := rfl
  have hmem : euler2d_dg_maximum data .CPU ∈ (0 : ℝ) :: data := by
    rw [hfold]
    rcases foldl_max_eq_or_mem data 0 with h | h
    · rw [h]
      exact List.mem_cons_self _ _
    · exact List.mem_cons_of_mem _ h
  have hub : ∀ x ∈ (0 : ℝ) :: data, x ≤ euler2d_dg_maximum data .CPU := by
    intro x hx
    rw [hfold]
    rcases List.mem_cons.mp hx with hx0 | hx
    · rw [hx0]
      exact (le_foldl_max data 0).1
    · exact (le_foldl_max data 0).2 x hx
  refine ⟨hmem, hub, ?_, ?_, rfl, rfl⟩
  · intro h
    rw [hfold, h]
    rfl
  · intro hneg
    rcases List.mem_cons.mp hmem with h | h
    · exact h
    · have h1 : euler2d_dg_maximum data .CPU < 0 := hneg _ h
      have h2 : (0 : ℝ) ≤ euler2d_dg_maximum data .CPU :=
        hub 0 (List.mem_cons_self _ _)
      linarith

/-- C3 counterexample: with `cell.order = 6` (outside {1,…,5}) the advance
pass writes nothing, so a write buffer filled with ones is NOT left
populated with zeros. -/
theorem out_of_range_order_not_zero_filled :
    (euler2d_dg_advance_rk (cellOfOrder 6) mesh1 wrZero wrOnes 1 .CPU).2 0 0 0 = 1 ∧
    (1 : ℝ) ≠ 0 := by
  have hnp : num_polynomials (cellOfOrder 6) = 0 := by
    simp only [num_polynomials, cellOfOrder]
    norm_num
  have hpass : (euler2d_dg_advance_rk (cellOfOrder 6) mesh1 wrZero wrOnes 1 .CPU).2 = wrOnes := by
    have heq : (euler2d_dg_advance_rk (cellOfOrder 6) mesh1 wrZero wrOnes 1 .CPU).2 =
        (cellIndices mesh1.ni mesh1.nj).foldl
          (fun w p => advance_rk_zone_dg (cellOfOrder 6) mesh1 wrZero w 1 p.1 p.2) wrOnes := rfl
    rw [heq]
    exact advance_foldl_id _ _ _ _ hnp _ _
  rw [hpass]
  exact ⟨rfl, by norm_num⟩

/-- C3 (amended): for every `cell.order` outside {1,…,5}, `num_polynomials`
returns 0, so every modal (n_poly-bounded) loop is empty and the advance
pass writes nothing to the weights write buffer: the write buffer is left
exactly as the caller provided it (so it holds zeros only if pre-zeroed). -/
theorem out_of_range_order_pass_leaves_wr (cell : Cell)
    (Hord : cell.order ≠ 1 ∧ cell.order ≠ 2 ∧ cell.order ≠ 3 ∧
      cell.order ≠ 4 ∧ cell.order ≠ 5) :
    num_polynomials cell = 0 ∧
    ∀ (mesh : Mesh) (weights_rd weights_wr : Wbuf) (dt : ℝ),
      (euler2d_dg_advance_rk cell mesh weights_rd weights_wr dt .CPU).2 = weights_wr := by
  obtain ⟨h1, h2, h3, h4, h5⟩ := Hord
  have hnp : num_polynomials cell = 0 := by
    simp only [num_polynomials, if_neg h1, if_neg h2, if_neg h3, if_neg h4, if_neg h5]
  refine ⟨hnp, ?_⟩
  intro mesh rd wr dt
  have heq : (euler2d_dg_advance_rk cell mesh rd wr dt .CPU).2 =
      (cellIndices mesh.ni mesh.nj).foldl
        (fun w p => advance_rk_zone_dg cell mesh rd w dt p.1 p.2) wr := rfl
  rw [heq]
  exact advance_foldl_id cell mesh rd dt hnp _ _

theorem out_of_range_order_pass_leaves_wr_witness :
    ((cellOfOrder 6).order ≠ 1 ∧ (cellOfOrder 6).order ≠ 2 ∧ (cellOfOrder 6).order ≠ 3 ∧
      (cellOfOrder 6).order ≠ 4 ∧ (cellOfOrder 6).order ≠ 5) ∧
    num_polynomials (cellOfOrder 6) = 0 ∧
    (euler2d_dg_advance_rk (cellOfOrder 6) mesh1 wrZero wrOnes 1 .CPU).2 = wrOnes := by
  have hord : (cellOfOrder 6).order ≠ 1 ∧ (cellOfOrder 6).order ≠ 2 ∧
      (cellOfOrder 6).order ≠ 3 ∧ (cellOfOrder 6).order ≠ 4 ∧ (cellOfOrder 6).order ≠ 5 := by
    simp only [cellOfOrder]
    norm_num
  obtain ⟨hn, hp⟩ := out_of_range_order_pass_leaves_wr (cellOfOrder 6) hord
  exact ⟨hord, hn, hp mesh1 wrZero wrOnes 1⟩

theorem max_abs_pm (v c : ℝ) (hc : 0 ≤ c) : max |v - c| |v + c| = |v| + c := by
  rcases le_or_lt 0 v with hv | hv
  · have hvc : |v + c| = v + c := abs_of_nonneg (by linarith)
    have h1 : |v - c| ≤ |v + c| := by
      rw [hvc]
      exact abs_le.mpr ⟨by linarith, by linarith⟩
    rw [max_eq_right h1, hvc, abs_of_nonneg hv]
  · have hvc : |v - c| = -v + c := by
      rw [abs_of_nonpos (by linarith)]
      ring
    have h1 : |v + c| ≤ |v - c| := by
      rw [hvc]
      exact abs_le.mpr ⟨by linarith, by linarith⟩
    rw [max_eq_left h1, hvc, abs_of_neg hv]

theorem primitive_max_wavespeed_eq (p : Fin 4 → ℝ) :
    primitive_max_wavespeed p =
      max (|p 1| + Real.sqrt (primitive_to_sound_speed_squared p))
        (|p 2| + Real.sqrt (primitive_to_sound_speed_squared p)) := by
  simp only [primitive_max_wavespeed]
  rw [max_abs_pm _ _ (Real.sqrt_nonneg _), max_abs_pm _ _ (Real.sqrt_nonneg _)]

/-- C8: for every interior cell whose mode-0 conserved state derives to a
primitive state with positive density and pressure, the wavespeed pass
writes `max(|v_x| + c_s, |v_y| + c_s)` of that primitive mean state at that
cell, a non-negative value. -/
theorem wavespeed_pass_value (cell : Cell) (mesh : Mesh) (w : Wbuf)
    (ws : ℤ → ℤ → ℝ) (i j : ℤ) (hij : (i, j) ∈ cellIndices mesh.ni mesh.nj)
    (hrho : 0 < conserved_to_primitive (mean_cons cell w i j) 0)
    (hp : 0 < conserved_to_primitive (mean_cons cell w i j) 3) :
    (euler2d_dg_wavespeed cell mesh w ws .CPU).2 i j =
      max (|conserved_to_primitive (mean_cons cell w i j) 1| +
          Real.sqrt (primitive_to_sound_speed_squared
            (conserved_to_primitive (mean_cons cell w i j))))
        (|conserved_to_primitive (mean_cons cell w i j) 2| +
          Real.sqrt (primitive_to_sound_speed_squared
            (conserved_to_primitive (mean_cons cell w i j)))) ∧
    0 ≤ (euler2d_dg_wavespeed cell mesh w ws .CPU).2 i j := by
  have heq : (euler2d_dg_wavespeed cell mesh w ws .CPU).2 =
      (cellIndices mesh.ni mesh.nj).foldl
        (fun s p => wavespeed_zone cell w s p.1 p.2) ws := rfl
  have hval : (euler2d_dg_wavespeed cell mesh w ws .CPU).2 i j =
      primitive_max_wavespeed (conserved_to_primitive (mean_cons cell w i j)) := by
    rw [heq]
    exact ws_foldl_mem cell w _ ws i j hij
  refine ⟨?_, ?_⟩
  · rw [hval, primitive_max_wavespeed_eq]
  · rw [hval, primitive_max_wavespeed_eq]
    exact le_max_iff.mpr (Or.inl (add_nonneg (abs_nonneg _) (Real.sqrt_nonneg _)))

theorem wavespeed_pass_value_witness :
    ((0 : ℤ), (0 : ℤ)) ∈ cellIndices mesh1.ni mesh1.nj ∧
    0 < conserved_to_primitive (mean_cons cellP1 rdConst 0 0) 0 ∧
    0 < conserved_to_primitive (mean_cons cellP1 rdConst 0 0) 3 ∧
    ((euler2d_dg_wavespeed cellP1 mesh1 rdConst ws0 .CPU).2 0 0 =
      max (|conserved_to_primitive (mean_cons cellP1 rdConst 0 0) 1| +
          Real.sqrt (primitive_to_sound_speed_squared
            (conserved_to_primitive (mean_cons cellP1 rdConst 0 0))))
        (|conserved_to_primitive (mean_cons cellP1 rdConst 0 0) 2| +
          Real.sqrt (primitive_to_sound_speed_squared
            (conserved_to_primitive (mean_cons cellP1 rdConst 0 0)))) ∧
      0 ≤ (euler2d_dg_wavespeed cellP1 mesh1 rdConst ws0 .CPU).2 0 0) := by
  have hij : ((0 : ℤ), (0 : ℤ)) ∈ cellIndices mesh1.ni mesh1.nj := by
    rw [mem_cellIndices]
    norm_num [mesh1]
  have hrho : 0 < conserved_to_primitive (mean_cons cellP1 rdConst 0 0) 0 := by
    simp [conserved_to_primitive, mean_cons, rdConst, num_polynomials, cellP1]
  have hp : 0 < conserved_to_primitive (mean_cons cellP1 rdConst 0 0) 3 := by
    simp [conserved_to_primitive, mean_cons, rdConst, num_polynomials, cellP1,
      ADIABATIC_GAMMA]
    norm_num [show ((3 : Fin 4) : ℕ) = 3 from rfl]
  exact ⟨hij, hrho, hp, wavespeed_pass_value cellP1 mesh1 rdConst ws0 0 0 hij hrho hp⟩

/-- C10: the wavespeed pass reads only the mode-0 (`l = 0`) coefficient of
each field: two weight buffers that agree on every cell's mode-0
coefficients produce identical wavespeed output arrays. -/
theorem wavespeed_mode0_only (cell : Cell) (mesh : Mesh) (w w2 : Wbuf)
    (ws : ℤ → ℤ → ℝ)
    (hagree : ∀ (i j : ℤ) (q : Fin 4),
      w i j ((q : ℕ) * num_polynomials cell + 0) =
        w2 i j ((q : ℕ) * num_polynomials cell + 0)) :
    (euler2d_dg_wavespeed cell mesh w ws .CPU).2 =
      (euler2d_dg_wavespeed cell mesh w2 ws .CPU).2 := by
  have hzone : ∀ (s : ℤ → ℤ → ℝ) (i j : ℤ),
      wavespeed_zone cell w s i j = wavespeed_zone cell w2 s i j := by
    intro s i j
    have hc : (fun q : Fin 4 => w i j ((q : ℕ) * num_polynomials cell + 0)) =
        fun q : Fin 4 => w2 i j ((q : ℕ) * num_polynomials cell + 0) :=
      funext fun q => hagree i j q
    simp only [wavespeed_zone]
    rw [hc]
  have hfold : ∀ (L : List (ℤ × ℤ)) (s : ℤ → ℤ → ℝ),
      L.foldl (fun s p => wavespeed_zone cell w s p.1 p.2) s =
        L.foldl (fun s p => wavespeed_zone cell w2 s p.1 p.2) s := by
    intro L
    induction L with
    | nil =>
      intro s
      rfl
    | cons p T ih =>
      intro s
      rw [List.foldl_cons, List.foldl_cons, hzone, ih]
  exact hfold _ ws

theorem wavespeed_mode0_only_witness :
    (∀ (i j : ℤ) (q : Fin 4),
      wModes37 i j ((q : ℕ) * num_polynomials (cellOfOrder 2) + 0) =
        wModes42 i j ((q : ℕ) * num_polynomials (cellOfOrder 2) + 0)) ∧
    (euler2d_dg_wavespeed (cellOfOrder 2) mesh1 wModes37 ws0 .CPU).2 =
      (euler2d_dg_wavespeed (cellOfOrder 2) mesh1 wModes42 ws0 .CPU).2 := by
  have hagree : ∀ (i j : ℤ) (q : Fin 4),
      wModes37 i j ((q : ℕ) * num_polynomials (cellOfOrder 2) + 0) =
        wModes42 i j ((q : ℕ) * num_polynomials (cellOfOrder 2) + 0) := by
    intro i j q
    have hnp : num_polynomials (cellOfOrder 2) = 3 := by
      simp only [num_polynomials, cellOfOrder]
      norm_num
    rw [hnp]
    fin_cases q <;> norm_num [wModes37, wModes42]
  exact ⟨hagree, wavespeed_mode0_only (cellOfOrder 2) mesh1 wModes37 wModes42 ws0 hagree⟩

theorem maximum_spec_witness :
    (∀ x ∈ [(-2 : ℝ), -1], x < 0) ∧ euler2d_dg_maximum [(-2 : ℝ), -1] .CPU = 0 := by
  have hneg : ∀ x ∈ [(-2 : ℝ), -1], x < 0 := by
    intro x hx
    rcases List.mem_cons.mp hx with rfl | hx
    · norm_num
    · rcases List.mem_cons.mp hx with rfl | hx
      · norm_num
      · cases hx
  exact ⟨hneg, (maximum_spec _).2.2.2.1 hneg⟩

theorem face_value_const (n : ℕ) (wfun : ℕ → ℝ) (nd : NodeData) (P : Fin 4 → ℝ)
    (hnp : 0 < n) (hphi : nd.phi 0 = 1)
    (h0 : ∀ q : Fin 4, wfun ((q : ℕ) * n) = primitive_to_conserved P q)
    (h1 : ∀ (q : Fin 4) (l : ℕ), 0 < l → l < n → wfun ((q : ℕ) * n + l) = 0) :
    face_value wfun n nd = primitive_to_conserved P := by
  funext q
  simp only [face_value]
  have hsum : (∑ l ∈ Finset.range n, wfun ((q : ℕ) * n + l) * nd.phi l)
      = wfun ((q : ℕ) * n + 0) * nd.phi 0 := by
    apply Finset.sum_eq_single
    · intro l hl hlne
      rw [h1 q l (Nat.pos_of_ne_zero hlne) (Finset.mem_range.mp hl), zero_mul]
    · intro h0mem
      exact absurd (Finset.mem_range.mpr hnp) h0mem
  rw [hsum, hphi, mul_one]
  exact h0 q

theorem advance_zone_const (cell : Cell) (mesh : Mesh) (rd w : Wbuf) (dt : ℝ)
    (P : Fin 4 → ℝ) (i j : ℤ) (k : ℕ)
    (hnp : 0 < num_polynomials cell)
    (hrho : 0 < P 0) (hpres : 0 < P 3)
    (hphi_li : ∀ qp < cell.order.toNat, (cell.face_nodes_li qp).phi 0 = 1)
    (hphi_ri : ∀ qp < cell.order.toNat, (cell.face_nodes_ri qp).phi 0 = 1)
    (hphi_lj : ∀ qp < cell.order.toNat, (cell.face_nodes_lj qp).phi 0 = 1)
    (hphi_rj : ∀ qp < cell.order.toNat, (cell.face_nodes_rj qp).phi 0 = 1)
    (hphi_in : ∀ qp < (num_quadrature_points cell).toNat,
      (cell.interior_nodes qp).phi 0 = 1)
    (hdivx : ∀ l < num_polynomials cell,
      ∑ qp ∈ Finset.range (num_quadrature_points cell).toNat,
        (cell.interior_nodes qp).dphi_dx l * (cell.interior_nodes qp).weight
      = ∑ qp ∈ Finset.range cell.order.toNat,
        ((cell.face_nodes_li qp).phi l * (cell.face_nodes_li qp).weight
          + (cell.face_nodes_ri qp).phi l * (cell.face_nodes_ri qp).weight))
    (hdivy : ∀ l < num_polynomials cell,
      ∑ qp ∈ Finset.range (num_quadrature_points cell).toNat,
        (cell.interior_nodes qp).dphi_dy l * (cell.interior_nodes qp).weight
      = ∑ qp ∈ Finset.range cell.order.toNat,
        ((cell.face_nodes_lj qp).phi l * (cell.face_nodes_lj qp).weight
          + (cell.face_nodes_rj qp).phi l * (cell.face_nodes_rj qp).weight))
    (hw0 : ∀ (i2 j2 : ℤ) (q : Fin 4),
      rd i2 j2 ((q : ℕ) * num_polynomials cell) = primitive_to_conserved P q)
    (hw1 : ∀ (i2 j2 : ℤ) (q : Fin 4) (l : ℕ), 0 < l → l < num_polynomials cell →
      rd i2 j2 ((q : ℕ) * num_polynomials cell + l) = 0)
    (hk : k < 4 * num_polynomials cell) :
    advance_rk_zone_dg cell mesh rd w dt i j i j k = rd i j k := by
  have hQlt : k / num_polynomials cell < 4 := Nat.div_lt_of_lt_mul (by omega)
  have hL : k % num_polynomials cell < num_polynomials cell := Nat.mod_lt _ hnp
  have hfc : ∀ (i2 j2 : ℤ) (nd : NodeData), nd.phi 0 = 1 →
      face_value (rd i2 j2) (num_polynomials cell) nd = primitive_to_conserved P :=
    fun i2 j2 nd hphi =>
      face_value_const _ _ _ _ hnp hphi (hw0 i2 j2) (hw1 i2 j2)
  have hcp : conserved_to_primitive (primitive_to_conserved P) = P :=
    c2p_p2c P (ne_of_gt hrho)
  have hrm : ∀ dir : ℕ,
      riemann_hlle P P dir = primitive_to_flux P (primitive_to_conserved P) dir :=
    fun dir => riemann_hlle_same P hrho hpres dir
  simp only [advance_rk_zone_dg]
  rw [dif_pos (⟨trivial, trivial, hk⟩ : True ∧ True ∧ k < 4 * num_polynomials cell)]
  have hS1 : (∑ x ∈ Finset.range (num_quadrature_points cell).toNat,
        (primitive_to_flux
            (conserved_to_primitive
              (face_value (rd i j) (num_polynomials cell) (cell.interior_nodes x)))
            (face_value (rd i j) (num_polynomials cell) (cell.interior_nodes x)) 0
            ⟨k / num_polynomials cell, hQlt⟩ *
              (cell.interior_nodes x).dphi_dx (k % num_polynomials cell) *
            (cell.interior_nodes x).weight +
          primitive_to_flux
            (conserved_to_primitive
              (face_value (rd i j) (num_polynomials cell) (cell.interior_nodes x)))
            (face_value (rd i j) (num_polynomials cell) (cell.interior_nodes x)) 1
            ⟨k / num_polynomials cell, hQlt⟩ *
              (cell.interior_nodes x).dphi_dy (k % num_polynomials cell) *
            (cell.interior_nodes x).weight))
      = primitive_to_flux P (primitive_to_conserved P) 0
          ⟨k / num_polynomials cell, hQlt⟩ *
          (∑ x ∈ Finset.range (num_quadrature_points cell).toNat,
            (cell.interior_nodes x).dphi_dx (k % num_polynomials cell) *
              (cell.interior_nodes x).weight)
        + primitive_to_flux P (primitive_to_conserved P) 1
          ⟨k / num_polynomials cell, hQlt⟩ *
          (∑ x ∈ Finset.range (num_quadrature_points cell).toNat,
            (cell.interior_nodes x).dphi_dy (k % num_polynomials cell) *
              (cell.interior_nodes x).weight) := by
    rw [Finset.mul_sum, Finset.mul_sum, ← Finset.sum_add_distrib]
    apply Finset.sum_congr rfl
    intro x hx
    rw [hfc i j (cell.interior_nodes x) (hphi_in x (Finset.mem_range.mp hx)), hcp]
    ring
  have hS2 : (∑ x ∈ Finset.range cell.order.toNat,
        (riemann_hlle
            (conserved_to_primitive
              (face_value (rd (i - 1) j) (num_polynomials cell) (cell.face_nodes_ri x)))
            (conserved_to_primitive
              (face_value (rd i j) (num_polynomials cell) (cell.face_nodes_li x))) 0
            ⟨k / num_polynomials cell, hQlt⟩ *
              (cell.face_nodes_li x).phi (k % num_polynomials cell) *
            (cell.face_nodes_li x).weight +
          riemann_hlle
            (conserved_to_primitive
              (face_value (rd i j) (num_polynomials cell) (cell.face_nodes_ri x)))
            (conserved_to_primitive
              (face_value (rd (i + 1) j) (num_polynomials cell) (cell.face_nodes_li x))) 0
            ⟨k / num_polynomials cell, hQlt⟩ *
              (cell.face_nodes_ri x).phi (k % num_polynomials cell) *
            (cell.face_nodes_ri x).weight +
          riemann_hlle
            (conserved_to_primitive
              (face_value (rd i (j - 1)) (num_polynomials cell) (cell.face_nodes_rj x)))
            (conserved_to_primitive
              (face_value (rd i j) (num_polynomials cell) (cell.face_nodes_lj x))) 1
            ⟨k / num_polynomials cell, hQlt⟩ *
              (cell.face_nodes_lj x).phi (k % num_polynomials cell) *
            (cell.face_nodes_lj x).weight +
          riemann_hlle
            (conserved_to_primitive
              (face_value (rd i j) (num_polynomials cell) (cell.face_nodes_rj x)))
            (conserved_to_primitive
              (face_value (rd i (j + 1)) (num_polynomials cell) (cell.face_nodes_lj x))) 1
            ⟨k / num_polynomials cell, hQlt⟩ *
              (cell.face_nodes_rj x).phi (k % num_polynomials cell) *
            (cell.face_nodes_rj x).weight))
      = primitive_to_flux P (primitive_to_conserved P) 0
          ⟨k / num_polynomials cell, hQlt⟩ *
          (∑ x ∈ Finset.range cell.order.toNat,
            ((cell.face_nodes_li x).phi (k % num_polynomials cell) *
                (cell.face_nodes_li x).weight
              + (cell.face_nodes_ri x).phi (k % num_polynomials cell) *
                (cell.face_nodes_ri x).weight))
        + primitive_to_flux P (primitive_to_conserved P) 1
          ⟨k / num_polynomials cell, hQlt⟩ *
          (∑ x ∈ Finset.range cell.order.toNat,
            ((cell.face_nodes_lj x).phi (k % num_polynomials cell) *
                (cell.face_nodes_lj x).weight
              + (cell.face_nodes_rj x).phi (k % num_polynomials cell) *
                (cell.face_nodes_rj x).weight)) := by
    rw [Finset.mul_sum, Finset.mul_sum, ← Finset.sum_add_distrib]
    apply Finset.sum_congr rfl
    intro x hx
    have hx2 := Finset.mem_range.mp hx
    simp only [hfc (i - 1) j (cell.face_nodes_ri x) (hphi_ri x hx2),
      hfc i j (cell.face_nodes_li x) (hphi_li x hx2),
      hfc i j (cell.face_nodes_ri x) (hphi_ri x hx2),
      hfc (i + 1) j (cell.face_nodes_li x) (hphi_li x hx2),
      hfc i (j - 1) (cell.face_nodes_rj x) (hphi_rj x hx2),
      hfc i j (cell.face_nodes_lj x) (hphi_lj x hx2),
      hfc i j (cell.face_nodes_rj x) (hphi_rj x hx2),
      hfc i (j + 1) (cell.face_nodes_lj x) (hphi_lj x hx2),
      hcp, hrm 0, hrm 1]
    ring
  rw [hS1, hS2, hdivx _ hL, hdivy _ hL]
  ring

/-- C4: if every cell's weights (ghost cells included) encode the same
constant primitive state with positive density and pressure (only the mode
`l = 0` coefficients nonzero, equal to `primitive_to_conserved P` across the
grid), then one `euler2d_dg_advance_rk` pass reproduces the read buffer: at
every interior cell the write buffer equals the read buffer on all
`4*n_poly` written payload entries (exact real arithmetic; the tabulated
`Cell` data is assumed to satisfy `phi_0 = 1` at all nodes and the
surface/volume quadrature divergence identity). -/
theorem advance_rk_constant_state (cell : Cell) (mesh : Mesh)
    (weights_rd weights_wr : Wbuf) (dt : ℝ) (P : Fin 4 → ℝ)
    (hnp : 0 < num_polynomials cell)
    (hrho : 0 < P 0) (hpres : 0 < P 3)
    (hphi_li : ∀ qp < cell.order.toNat, (cell.face_nodes_li qp).phi 0 = 1)
    (hphi_ri : ∀ qp < cell.order.toNat, (cell.face_nodes_ri qp).phi 0 = 1)
    (hphi_lj : ∀ qp < cell.order.toNat, (cell.face_nodes_lj qp).phi 0 = 1)
    (hphi_rj : ∀ qp < cell.order.toNat, (cell.face_nodes_rj qp).phi 0 = 1)
    (hphi_in : ∀ qp < (num_quadrature_points cell).toNat,
      (cell.interior_nodes qp).phi 0 = 1)
    (hdivx : ∀ l < num_polynomials cell,
      ∑ qp ∈ Finset.range (num_quadrature_points cell).toNat,
        (cell.interior_nodes qp).dphi_dx l * (cell.interior_nodes qp).weight
      = ∑ qp ∈ Finset.range cell.order.toNat,
        ((cell.face_nodes_li qp).phi l * (cell.face_nodes_li qp).weight
          + (cell.face_nodes_ri qp).phi l * (cell.face_nodes_ri qp).weight))
    (hdivy : ∀ l < num_polynomials cell,
      ∑ qp ∈ Finset.range (num_quadrature_points cell).toNat,
        (cell.interior_nodes qp).dphi_dy l * (cell.interior_nodes qp).weight
      = ∑ qp ∈ Finset.range cell.order.toNat,
        ((cell.face_nodes_lj qp).phi l * (cell.face_nodes_lj qp).weight
          + (cell.face_nodes_rj qp).phi l * (cell.face_nodes_rj qp).weight))
    (hw0 : ∀ (i2 j2 : ℤ) (q : Fin 4),
      weights_rd i2 j2 ((q : ℕ) * num_polynomials cell) = primitive_to_conserved P q)
    (hw1 : ∀ (i2 j2 : ℤ) (q : Fin 4) (l : ℕ), 0 < l → l < num_polynomials cell →
      weights_rd i2 j2 ((q : ℕ) * num_polynomials cell + l) = 0) :
    ∀ (i j : ℤ), (i, j) ∈ cellIndices mesh.ni mesh.nj →
      ∀ k < 4 * num_polynomials cell,
      (euler2d_dg_advance_rk cell mesh weights_rd weights_wr dt .CPU).2 i j k =
        weights_rd i j k := by
  intro i j hij k hk
  have heq : (euler2d_dg_advance_rk cell mesh weights_rd weights_wr dt .CPU).2 =
      (cellIndices mesh.ni mesh.nj).foldl
        (fun w p => advance_rk_zone_dg cell mesh weights_rd w dt p.1 p.2)
        weights_wr := rfl
  rw [heq, advance_foldl_mem cell mesh weights_rd dt _ weights_wr i j k hij hk]
  exact advance_zone_const cell mesh weights_rd weights_wr dt P i j k hnp hrho hpres
    hphi_li hphi_ri hphi_lj hphi_rj hphi_in hdivx hdivy hw0 hw1 hk

theorem advance_rk_constant_state_witness :
    0 < num_polynomials cellP1 ∧
    0 < Pconst 0 ∧ 0 < Pconst 3 ∧
    (∀ qp < cellP1.order.toNat, (cellP1.face_nodes_li qp).phi 0 = 1) ∧
    (∀ qp < cellP1.order.toNat, (cellP1.face_nodes_ri qp).phi 0 = 1) ∧
    (∀ qp < cellP1.order.toNat, (cellP1.face_nodes_lj qp).phi 0 = 1) ∧
    (∀ qp < cellP1.order.toNat, (cellP1.face_nodes_rj qp).phi 0 = 1) ∧
    (∀ qp < (num_quadrature_points cellP1).toNat, (cellP1.interior_nodes qp).phi 0 = 1) ∧
    (∀ l < num_polynomials cellP1,
      ∑ qp ∈ Finset.range (num_quadrature_points cellP1).toNat,
        (cellP1.interior_nodes qp).dphi_dx l * (cellP1.interior_nodes qp).weight
      = ∑ qp ∈ Finset.range cellP1.order.toNat,
        ((cellP1.face_nodes_li qp).phi l * (cellP1.face_nodes_li qp).weight
          + (cellP1.face_nodes_ri qp).phi l * (cellP1.face_nodes_ri qp).weight)) ∧
    (∀ l < num_polynomials cellP1,
      ∑ qp ∈ Finset.range (num_quadrature_points cellP1).toNat,
        (cellP1.interior_nodes qp).dphi_dy l * (cellP1.interior_nodes qp).weight
      = ∑ qp ∈ Finset.range cellP1.order.toNat,
        ((cellP1.face_nodes_lj qp).phi l * (cellP1.face_nodes_lj qp).weight
          + (cellP1.face_nodes_rj qp).phi l * (cellP1.face_nodes_rj qp).weight)) ∧
    (∀ (i2 j2 : ℤ) (q : Fin 4),
      rdConst i2 j2 ((q : ℕ) * num_polynomials cellP1) = primitive_to_conserved Pconst q) ∧
    (∀ (i2 j2 : ℤ) (q : Fin 4) (l : ℕ), 0 < l → l < num_polynomials cellP1 →
      rdConst i2 j2 ((q : ℕ) * num_polynomials cellP1 + l) = 0) ∧
    ((0 : ℤ), (0 : ℤ)) ∈ cellIndices mesh1.ni mesh1.nj ∧
    0 < 4 * num_polynomials cellP1 ∧
    (euler2d_dg_advance_rk cellP1 mesh1 rdConst wrZero 1 .CPU).2 0 0 0 =
      rdConst 0 0 0 := by
  have hnp1 : num_polynomials cellP1 = 1 := by
    simp only [num_polynomials, cellP1]
    norm_num
  have hq1 : (num_quadrature_points cellP1).toNat = 1 := by
    simp only [num_quadrature_points, cellP1]
    norm_num
  have ho1 : cellP1.order.toNat = 1 := by
    simp only [cellP1]
    norm_num
  have hnp : 0 < num_polynomials cellP1 := by rw [hnp1]; norm_num
  have hrho : 0 < Pconst 0 := by norm_num [Pconst]
  have hpres : 0 < Pconst 3 := by norm_num [Pconst]
  have hphi_li : ∀ qp < cellP1.order.toNat, (cellP1.face_nodes_li qp).phi 0 = 1 := by
    intro qp _
    simp [cellP1, constNode]
  have hphi_ri : ∀ qp < cellP1.order.toNat, (cellP1.face_nodes_ri qp).phi 0 = 1 := by
    intro qp _
    simp [cellP1, constNode]
  have hphi_lj : ∀ qp < cellP1.order.toNat, (cellP1.face_nodes_lj qp).phi 0 = 1 := by
    intro qp _
    simp [cellP1, constNode]
  have hphi_rj : ∀ qp < cellP1.order.toNat, (cellP1.face_nodes_rj qp).phi 0 = 1 := by
    intro qp _
    simp [cellP1, constNode]
  have hphi_in : ∀ qp < (num_quadrature_points cellP1).toNat,
      (cellP1.interior_nodes qp).phi 0 = 1 := by
    intro qp _
    simp [cellP1, constNode]
  have hdivx : ∀ l < num_polynomials cellP1,
      ∑ qp ∈ Finset.range (num_quadrature_points cellP1).toNat,
        (cellP1.interior_nodes qp).dphi_dx l * (cellP1.interior_nodes qp).weight
      = ∑ qp ∈ Finset.range cellP1.order.toNat,
        ((cellP1.face_nodes_li qp).phi l * (cellP1.face_nodes_li qp).weight
          + (cellP1.face_nodes_ri qp).phi l * (cellP1.face_nodes_ri qp).weight) := by
    intro l hl
    rw [hq1, ho1]
    rw [hnp1] at hl
    interval_cases l
    simp [cellP1, constNode]
  have hdivy : ∀ l < num_polynomials cellP1,
      ∑ qp ∈ Finset.range (num_quadrature_points cellP1).toNat,
        (cellP1.interior_nodes qp).dphi_dy l * (cellP1.interior_nodes qp).weight
      = ∑ qp ∈ Finset.range cellP1.order.toNat,
        ((cellP1.face_nodes_lj qp).phi l * (cellP1.face_nodes_lj qp).weight
          + (cellP1.face_nodes_rj qp).phi l * (cellP1.face_nodes_rj qp).weight) := by
    intro l hl
    rw [hq1, ho1]
    rw [hnp1] at hl
    interval_cases l
    simp [cellP1, constNode]
  have hw0 : ∀ (i2 j2 : ℤ) (q : Fin 4),
      rdConst i2 j2 ((q : ℕ) * num_polynomials cellP1) = primitive_to_conserved Pconst q := by
    intro i2 j2 q
    rw [hnp1]
    fin_cases q <;>
      norm_num [rdConst, primitive_to_conserved, Pconst, ADIABATIC_GAMMA]
  have hw1 : ∀ (i2 j2 : ℤ) (q : Fin 4) (l : ℕ), 0 < l → l < num_polynomials cellP1 →
      rdConst i2 j2 ((q : ℕ) * num_polynomials cellP1 + l) = 0 := by
    intro i2 j2 q l hl0 hl1
    rw [hnp1] at hl1
    omega
  have hij : ((0 : ℤ), (0 : ℤ)) ∈ cellIndices mesh1.ni mesh1.nj := by
    rw [mem_cellIndices]
    norm_num [mesh1]
  have hk : (0 : ℕ) < 4 * num_polynomials cellP1 := by
    rw [hnp1]
    norm_num
  refine ⟨hnp, hrho, hpres, hphi_li, hphi_ri, hphi_lj, hphi_rj, hphi_in, hdivx, hdivy,
    hw0, hw1, hij, hk, ?_⟩
  exact advance_rk_constant_state cellP1 mesh1 rdConst wrZero 1 Pconst hnp hrho hpres
    hphi_li hphi_ri hphi_lj hphi_rj hphi_in hdivx hdivy hw0 hw1 0 0 hij 0 hk

/-- C2 (amended): the advance and wavespeed passes write only to their
write buffers: in every execution mode the read patch they return is the
one they were given, unchanged.  The limit pass gives no such guarantee —
it writes limited slopes into the read patch
(see `limit_pass_mutates_read_buffer`). -/
theorem pass_read_write_isolation (cell : Cell) (mesh : Mesh)
    (weights_rd weights_wr weights : Wbuf) (wavespeed : ℤ → ℤ → ℝ) (dt : ℝ) :
    (∀ mode : ExecutionMode,
      (euler2d_dg_advance_rk cell mesh weights_rd weights_wr dt mode).1 = weights_rd) ∧
    (∀ mode : ExecutionMode,
      (euler2d_dg_wavespeed cell mesh weights wavespeed mode).1 = weights) := by
  constructor
  · intro mode
    cases mode <;> rfl
  · intro mode
    cases mode <;> rfl

set_option maxHeartbeats 4000000 in
/-- C2 counterexample: one `euler2d_dg_limit_slopes` pass (CPU) on a 1 × 1
grid CHANGES the read patch: the interior cell (0,0) sits at flat base 48
(payload width 12 at order 2), its field-0 y-slope lives at flat address
49 and is `1` before the pass, and the read array returned by the pass
holds `0` there — the characteristic limiter clips the slope in place in
the read buffer.  So it is false that every element of the read patch
holds the same value after the pass. -/
theorem limit_pass_mutates_read_buffer :
    (euler2d_dg_limit_slopes (cellOfOrder 2) mesh1 rdC2flat wrZeroFlat .CPU).1 49 = 0 ∧
    rdC2flat 49 = 1 := by
  have hnp3 : num_polynomials (cellOfOrder 2) = 3 := by
    simp only [num_polynomials, cellOfOrder]
    norm_num
  have hmean : ∀ i2 j2 : ℤ,
      mean_cons_flat (cellOfOrder 2)
        (patch mesh1 (num_polynomials (cellOfOrder 2) * NCONS) NUM_GUARD rdC2flat) i2 j2
      = ![(1 : ℝ), 0, 0, 9 / 10] := by
    intro i2 j2
    funext q
    fin_cases q <;>
      (simp only [mean_cons_flat, patch, addr, hnp3, NCONS, NUM_GUARD, mesh1, rdC2flat,
        (show ((0 : Fin 4) : ℕ) = 0 from rfl), (show ((1 : Fin 4) : ℕ) = 1 from rfl),
        (show ((2 : Fin 4) : ℕ) = 2 from rfl), (show ((3 : Fin 4) : ℕ) = 3 from rfl),
        Matrix.cons_val_zero, Matrix.cons_val_one, Matrix.cons_val_two,
        Matrix.cons_val_three, Matrix.head_cons, Matrix.tail_cons];
       push_cast; split_ifs <;> first | (exfalso; omega) | norm_num)
  have hlx : char_lx ![(1 : ℝ), 0, 0, 9 / 10] =
      ![![0, -(1 / 2 : ℝ), 0, 1 / 3], ![1, 0, 0, -(2 / 3)],
        ![0, 1 / 2, 0, 1 / 3], ![0, 0, -1, 0]] := by
    funext qi qj
    fin_cases qi <;> fin_cases qj <;>
      norm_num [char_lx, conserved_to_primitive, primitive_to_sound_speed_squared,
        ADIABATIC_GAMMA, Real.sqrt_one]
  have hly : char_ly ![(1 : ℝ), 0, 0, 9 / 10] =
      ![![0, 0, -(1 / 2 : ℝ), 1 / 3], ![1, 0, 0, -(2 / 3)],
        ![0, 0, 1 / 2, 1 / 3], ![0, 1, 0, 0]] := by
    funext qi qj
    fin_cases qi <;> fin_cases qj <;>
      norm_num [char_ly, conserved_to_primitive, primitive_to_sound_speed_squared,
        ADIABATIC_GAMMA, Real.sqrt_one]
  have hry : char_ry ![(1 : ℝ), 0, 0, 9 / 10] =
      ![![1, 1, 1, (0 : ℝ)], ![0, 0, 0, 1], ![-1, 0, 1, 0],
        ![3 / 2, 0, 3 / 2, 0]] := by
    funext qi qj
    fin_cases qi <;> fin_cases qj <;>
      norm_num [char_ry, conserved_to_primitive, primitive_to_sound_speed_squared,
        ADIABATIC_GAMMA, Real.sqrt_one]
  have h3pos : (0 : ℝ) < Real.sqrt 3 := Real.sqrt_pos.mpr (by norm_num)
  have h3gt1 : (1 : ℝ) < Real.sqrt 3 :=
    (Real.lt_sqrt (by norm_num)).mpr (by norm_num)
  have hmmB3 : minmodB (Real.sqrt 3) 0 0 1 = 0 := by
    have hne : ¬ |Real.sqrt 3| ≤ 1 * 1 * 1 := by
      simpa [abs_of_pos h3pos] using not_le.mpr h3gt1
    simp only [minmodB, if_neg hne]
    have hmin : min |Real.sqrt 3| (min |(0 : ℝ)| |(0 : ℝ)|) = 0 := by
      rw [abs_zero, min_self]
      exact min_eq_right (abs_nonneg _)
    rw [hmin, mul_zero]
  have hmmB0 : minmodB (0 : ℝ) 0 0 1 = 0 := by
    norm_num [minmodB]
  constructor
  · have heq : (euler2d_dg_limit_slopes (cellOfOrder 2) mesh1 rdC2flat wrZeroFlat .CPU).1 =
        (limit_characteristic_slopes_zone (cellOfOrder 2) mesh1
          (patch mesh1 (num_polynomials (cellOfOrder 2) * NCONS) NUM_GUARD rdC2flat)
          (patch mesh1 (num_polynomials (cellOfOrder 2) * NCONS) NUM_GUARD wrZeroFlat)
          0 0).1 := rfl
    rw [heq]
    simp only [limit_characteristic_slopes_zone]
    simp only [hmean]
    simp only [hlx, hly, hry]
    norm_num [hnp3, patch, addr, NCONS, NUM_GUARD, mesh1, rdC2flat, Fin.sum_univ_four,
      Matrix.cons_val_zero, Matrix.cons_val_one, Matrix.cons_val_two,
      Matrix.cons_val_three, Matrix.head_cons, Matrix.tail_cons,
      (show ((0 : Fin 4) : ℕ) = 0 from rfl), (show ((1 : Fin 4) : ℕ) = 1 from rfl),
      (show ((2 : Fin 4) : ℕ) = 2 from rfl), (show ((3 : Fin 4) : ℕ) = 3 from rfl)]
    norm_num [hmmB3, hmmB0]
  · norm_num [rdC2flat]

end Euler2dDG
